import Mathlib

/-!
Verification of the session-protocol / tool-invocation pipeline specification
and of the FastMCP "Shrimp Tank" example of this repository.

The repository sources available here are the low-level tool-output test suite
(`tests/server/test_lowlevel_tool_output.py`) and the example application
(`examples/fastmcp/complex_inputs.py`).  The tool-invocation pipeline itself
(lookup, invocation, result normalization, capability negotiation) is exercised
by the test file but its implementation is not among the sources, so those
components are modelled from the specification text (each such definition is
marked `Modelled from the spec:`).  The example application is embedded
directly from its source.
-/

/-! ## JSON values

Modelled from the spec: the "mapping" shape a tool handler may return and the
"canonical JSON-text serialization" used by the Result Normalizer (spec 4.5).
Numbers are modelled as integers (all numeric values appearing in the spec and
the test suite are integers).  The three types are a mutual inductive family:
a JSON value, a JSON array (list of values), and a JSON object (ordered list
of key/value fields, i.e. a mapping). -/

mutual

inductive JsonValue : Type where
  | null : JsonValue
  | bool (b : Bool) : JsonValue
  | num (n : Int) : JsonValue
  | str (s : String) : JsonValue
  | arr (items : JsonArr) : JsonValue
  | obj (fields : JsonObj) : JsonValue

inductive JsonArr : Type where
  | nil : JsonArr
  | cons (hd : JsonValue) (tl : JsonArr) : JsonArr

inductive JsonObj : Type where
  | nil : JsonObj
  | cons (key : String) (val : JsonValue) (tl : JsonObj) : JsonObj

end

deriving instance DecidableEq for JsonValue, JsonArr, JsonObj

/-! ### Serialization helpers: decimal digits -/

/-- The decimal digit character for a digit value below ten. -/
def digitChar : Nat → Char
  | 0 => '0' | 1 => '1' | 2 => '2' | 3 => '3' | 4 => '4'
  | 5 => '5' | 6 => '6' | 7 => '7' | 8 => '8' | _ => '9'

/-- Numeric value of a decimal digit character. -/
def digitVal (c : Char) : Nat := c.toNat - 48

/-- Decimal representation of a natural number, most significant digit first. -/
def natChars (n : Nat) : List Char :=
  if _h : n < 10 then [digitChar n]
  else natChars (n / 10) ++ [digitChar (n % 10)]
decreasing_by exact Nat.div_lt_self (by omega) (by omega)

/-- Decimal representation of an integer. -/
def intChars (i : Int) : List Char :=
  if i < 0 then '-' :: natChars i.natAbs else natChars i.toNat

/-- Escape backslash and double-quote characters of a string body. -/
def escChars : List Char → List Char
  | [] => []
  | c :: cs => if c = '\"' ∨ c = '\\' then '\\' :: c :: escChars cs else c :: escChars cs

/-! ### The canonical serializer (spec 4.5: "canonical JSON-text serialization") -/

/-- The keyword `null` as characters. -/
def nullChars : List Char := "null".data

/-- The keyword `true` as characters. -/
def trueChars : List Char := "true".data

/-- The keyword `false` as characters. -/
def falseChars : List Char := "false".data

mutual

/-- Modelled from the spec: canonical JSON text of a value (no whitespace). -/
def serVal : JsonValue → List Char
  | .null => nullChars
  | .bool true => trueChars
  | .bool false => falseChars
  | .num i => intChars i
  | .str s => '\"' :: (escChars s.data ++ ['\"'])
  | .arr .nil => ['[', ']']
  | .arr (.cons v tl) => '[' :: (serVal v ++ serTailA tl)
  | .obj .nil => ['\x7b', '\x7d']
  | .obj (.cons k v tl) => '\x7b' :: (serMember k v ++ serTailO tl)

/-- Remaining elements of a nonempty array: each preceded by a comma, then `]`. -/
def serTailA : JsonArr → List Char
  | .nil => [']']
  | .cons v tl => ',' :: (serVal v ++ serTailA tl)

/-- One object member: quoted key, colon, value. -/
def serMember (k : String) (v : JsonValue) : List Char :=
  '\"' :: (escChars k.data ++ ('\"' :: ':' :: serVal v))

/-- Remaining members of a nonempty object: each preceded by a comma, then a closing brace. -/
def serTailO : JsonObj → List Char
  | .nil => ['\x7d']
  | .cons k v tl => ',' :: (serMember k v ++ serTailO tl)

end

/-- Canonical JSON-text serialization as a string. -/
def jsonSerialize (v : JsonValue) : String := String.mk (serVal v)

/-! ### Parser helpers -/

/-- Greedily split off the leading run of decimal digits. -/
def takeDigits : List Char → List Char × List Char
  | [] => ([], [])
  | c :: cs =>
    if c.isDigit then (c :: (takeDigits cs).1, (takeDigits cs).2)
    else ([], c :: cs)

/-- Accumulate the value of a digit string, most significant digit first. -/
def digitsVal : List Char → Nat → Nat
  | [], acc => acc
  | c :: cs, acc => digitsVal cs (10 * acc + digitVal c)

/-- Parse a nonempty leading run of digits as a natural number. -/
def parseNum (cs : List Char) : Option (Nat × List Char) :=
  match takeDigits cs with
  | ([], _) => none
  | (d :: ds, rest) => some (digitsVal (d :: ds) 0, rest)

/-- Consume an expected literal sequence of characters. -/
def expectChars : List Char → List Char → Option (List Char)
  | [], cs => some cs
  | _ :: _, [] => none
  | e :: es, c :: cs => if c = e then expectChars es cs else none

mutual

/-- Parse a string body up to an unescaped closing quote, undoing escapes. -/
def parseStrBody : List Char → Option (List Char × List Char)
  | [] => none
  | c :: cs =>
    if c = '\"' then some ([], cs)
    else if c = '\\' then parseStrEsc cs
    else
      match parseStrBody cs with
      | some (l, r) => some (c :: l, r)
      | none => none

/-- Continue a string body right after a backslash: the next character is taken verbatim. -/
def parseStrEsc : List Char → Option (List Char × List Char)
  | [] => none
  | d :: ds =>
    match parseStrBody ds with
    | some (l, r) => some (d :: l, r)
    | none => none

end

/-- `true` when the list does not start with a decimal digit (so a greedy
number parse cannot run into it). -/
def noDigitHead : List Char → Bool
  | [] => true
  | c :: _ => !c.isDigit

/-! ### The fuelled recursive-descent parser for canonical JSON text -/

mutual

/-- Modelled from the spec: `JSON_parse` on canonical JSON text (round-trip
law, spec 8).  Recursive descent with explicit fuel. -/
def parseVal : Nat → List Char → Option (JsonValue × List Char)
  | 0, _ => none
  | _ + 1, [] => none
  | g + 1, c :: cs =>
    if c.isDigit then
      match parseNum (c :: cs) with
      | some (n, rest) => some (.num (Int.ofNat n), rest)
      | none => none
    else if c = '-' then
      match parseNum cs with
      | some (n, rest) => some (.num (-(Int.ofNat n)), rest)
      | none => none
    else if c = '\"' then
      match parseStrBody cs with
      | some (l, rest) => some (.str (String.mk l), rest)
      | none => none
    else if c = 'n' then
      match expectChars ['u', 'l', 'l'] cs with
      | some rest => some (.null, rest)
      | none => none
    else if c = 't' then
      match expectChars ['r', 'u', 'e'] cs with
      | some rest => some (.bool true, rest)
      | none => none
    else if c = 'f' then
      match expectChars ['a', 'l', 's', 'e'] cs with
      | some rest => some (.bool false, rest)
      | none => none
    else if c = '[' then
      match parseArrFields g cs with
      | some (a, rest) => some (.arr a, rest)
      | none => none
    else if c = '\x7b' then
      match parseObjFields g cs with
      | some (o, rest) => some (.obj o, rest)
      | none => none
    else none
termination_by f _cs => (f, 0)

/-- Contents of an array, right after `[`: either `]` at once, or one value
followed by an array tail. -/
def parseArrFields : Nat → List Char → Option (JsonArr × List Char)
  | _, [] => none
  | g, c :: cs =>
    if c = ']' then some (.nil, cs)
    else
      match parseVal g (c :: cs) with
      | some (v, r1) =>
        match parseArrTail g r1 with
        | some (tl, r2) => some (.cons v tl, r2)
        | none => none
      | none => none
termination_by g _cs => (g, 3)

/-- After an array element: `]` ends the array, `,` precedes another element. -/
def parseArrTail : Nat → List Char → Option (JsonArr × List Char)
  | _, [] => none
  | f, c :: cs =>
    if c = ']' then some (.nil, cs)
    else if c = ',' then
      match f with
      | 0 => none
      | g + 1 =>
        match parseVal g cs with
        | some (v, r1) =>
          match parseArrTail g r1 with
          | some (tl, r2) => some (.cons v tl, r2)
          | none => none
        | none => none
    else none
termination_by f _cs => (f, 2)

/-- One object member: quoted key, colon, value. -/
def parseMember : Nat → List Char → Option ((String × JsonValue) × List Char)
  | 0, _ => none
  | _ + 1, [] => none
  | g + 1, c :: cs =>
    if c = '\"' then
      match parseStrBody cs with
      | some (l, r1) =>
        match r1 with
        | ':' :: r2 =>
          match parseVal g r2 with
          | some (v, r3) => some ((String.mk l, v), r3)
          | none => none
        | _ => none
      | none => none
    else none
termination_by f _cs => (f, 1)

/-- Contents of an object, right after the opening brace: either a closing
brace at once, or one member followed by an object tail. -/
def parseObjFields : Nat → List Char → Option (JsonObj × List Char)
  | _, [] => none
  | g, c :: cs =>
    if c = '\x7d' then some (.nil, cs)
    else
      match parseMember g (c :: cs) with
      | some (kv, r1) =>
        match parseObjTail g r1 with
        | some (tl, r2) => some (.cons kv.1 kv.2 tl, r2)
        | none => none
      | none => none
termination_by g _cs => (g, 3)

/-- After an object member: a closing brace ends the object, `,` precedes another member. -/
def parseObjTail : Nat → List Char → Option (JsonObj × List Char)
  | _, [] => none
  | f, c :: cs =>
    if c = '\x7d' then some (.nil, cs)
    else if c = ',' then
      match f with
      | 0 => none
      | g + 1 =>
        match parseMember g cs with
        | some (kv, r1) =>
          match parseObjTail g r1 with
          | some (tl, r2) => some (.cons kv.1 kv.2 tl, r2)
          | none => none
        | none => none
    else none
termination_by f _cs => (f, 2)

end

/-- Parse a string as one complete canonical JSON value. -/
def jsonParse (s : String) : Option JsonValue :=
  match parseVal (s.data.length + 1) s.data with
  | some (v, []) => some v
  | _ => none

/-! ### Fuel weights: enough fuel for the parser to traverse a serialized value -/

mutual

/-- Fuel needed by `parseVal` on the serialization of a value. -/
def wVal : JsonValue → Nat
  | .null => 1
  | .bool _ => 1
  | .num _ => 1
  | .str _ => 1
  | .arr .nil => 1
  | .arr (.cons v tl) => 2 + wVal v + wTA tl
  | .obj .nil => 1
  | .obj (.cons _ v tl) => 3 + wVal v + wTO tl

/-- Fuel needed by `parseArrTail` on a serialized array tail. -/
def wTA : JsonArr → Nat
  | .nil => 0
  | .cons v tl => 1 + wVal v + wTA tl

/-- Fuel needed by `parseObjTail` on a serialized object tail. -/
def wTO : JsonObj → Nat
  | .nil => 0
  | .cons _ v tl => 2 + wVal v + wTO tl

end

/-! ### Digit lemmas -/

theorem digitChar_isDigit {m : Nat} (h : m < 10) : (digitChar m).isDigit = true := by
  interval_cases m <;> decide

theorem digitVal_digitChar {m : Nat} (h : m < 10) : digitVal (digitChar m) = m := by
  interval_cases m <;> decide

theorem natChars_ne_nil (n : Nat) : natChars n ≠ [] := by
  rw [natChars]
  split
  · simp
  · simp

theorem natChars_digits (n : Nat) : ∀ c ∈ natChars n, c.isDigit = true := by
  induction n using Nat.strong_induction_on with
  | _ n ih =>
    rw [natChars]
    split
    · next h =>
      intro c hc
      simp at hc
      subst hc
      exact digitChar_isDigit h
    · next h =>
      intro c hc
      simp at hc
      rcases hc with hc | hc
      · exact ih (n / 10) (Nat.div_lt_self (by omega) (by omega)) c hc
      · subst hc
        exact digitChar_isDigit (Nat.mod_lt _ (by omega))

theorem digitsVal_append (l1 l2 : List Char) :
    ∀ acc, digitsVal (l1 ++ l2) acc = digitsVal l2 (digitsVal l1 acc) := by
  induction l1 with
  | nil => intro acc; simp only [List.nil_append, digitsVal]
  | cons c cs ih => intro acc; simp only [List.cons_append, digitsVal]; exact ih _

/-- Auxiliary scale factor for the positional-value lemma: ten to the number
of digits of `n`. -/
def tenPow (n : Nat) : Nat :=
  if _h : n < 10 then 10 else 10 * tenPow (n / 10)
decreasing_by exact Nat.div_lt_self (by omega) (by omega)

theorem digitsVal_natChars (n : Nat) :
    ∀ acc, digitsVal (natChars n) acc = acc * tenPow n + n := by
  induction n using Nat.strong_induction_on with
  | _ n ih =>
    intro acc
    rw [natChars, tenPow]
    split
    · next h =>
      simp only [digitsVal, digitVal_digitChar h]
      ring
    · next h =>
      rw [digitsVal_append]
      rw [ih (n / 10) (Nat.div_lt_self (by omega) (by omega))]
      simp only [digitsVal, digitVal_digitChar (Nat.mod_lt n (show 0 < 10 by omega))]
      have hdm : 10 * (n / 10) + n % 10 = n := Nat.div_add_mod n 10
      calc 10 * (acc * tenPow (n / 10) + n / 10) + n % 10
          = acc * (10 * tenPow (n / 10)) + (10 * (n / 10) + n % 10) := by ring
        _ = acc * (10 * tenPow (n / 10)) + n := by rw [hdm]

theorem takeDigits_append (ds rest : List Char) (hds : ∀ c ∈ ds, c.isDigit = true)
    (hr : noDigitHead rest = true) : takeDigits (ds ++ rest) = (ds, rest) := by
  induction ds with
  | nil =>
    simp only [List.nil_append]
    match rest with
    | [] => rfl
    | c :: cs =>
      simp [noDigitHead] at hr
      simp [takeDigits, hr]
  | cons d ds ih =>
    have hd : d.isDigit = true := hds d (by simp)
    have ih2 := ih (fun c hc => hds c (by simp [hc]))
    simp [takeDigits, hd, List.cons_append, ih2]

theorem parseNum_natChars (n : Nat) (rest : List Char) (hr : noDigitHead rest = true) :
    parseNum (natChars n ++ rest) = some (n, rest) := by
  have htd := takeDigits_append (natChars n) rest (natChars_digits n) hr
  unfold parseNum
  rw [htd]
  match hnc : natChars n with
  | [] => exact absurd hnc (natChars_ne_nil n)
  | d :: ds =>
    simp only []
    rw [← hnc, digitsVal_natChars n 0]
    simp

theorem expectChars_append (es rest : List Char) : expectChars es (es ++ rest) = some rest := by
  induction es with
  | nil => rfl
  | cons e es ih => simp [expectChars, ih]

theorem parseStrBody_escChars (l rest : List Char) :
    parseStrBody (escChars l ++ '\"' :: rest) = some (l, rest) := by
  induction l with
  | nil => simp [escChars, parseStrBody]
  | cons c cs ih =>
    by_cases hc : c = '\"' ∨ c = '\\'
    · have hbs : ('\\' : Char) ≠ '\"' := by decide
      simp [escChars, hc, parseStrBody, hbs, parseStrEsc, ih]
    · push_neg at hc
      simp [escChars, hc, parseStrBody, ih, hc.1, hc.2]

theorem serTailA_noDigitHead (tl : JsonArr) (rest : List Char) :
    noDigitHead (serTailA tl ++ rest) = true := by
  cases tl <;> simp [serTailA, noDigitHead]

theorem serTailO_noDigitHead (o : JsonObj) (rest : List Char) :
    noDigitHead (serTailO o ++ rest) = true := by
  cases o <;> simp [serTailO, noDigitHead]

theorem serVal_head (v : JsonValue) : ∃ c t, serVal v = c :: t ∧ c ≠ ']' := by
  cases v with
  | null => exact ⟨'n', ['u', 'l', 'l'], by simp [serVal, nullChars], by decide⟩
  | bool b =>
    cases b
    · exact ⟨'f', ['a', 'l', 's', 'e'], by simp [serVal, falseChars], by decide⟩
    · exact ⟨'t', ['r', 'u', 'e'], by simp [serVal, trueChars], by decide⟩
  | num i =>
    by_cases hi : i < 0
    · exact ⟨'-', natChars i.natAbs, by simp [serVal, intChars, hi], by decide⟩
    · match hnc : natChars i.toNat with
      | [] => exact absurd hnc (natChars_ne_nil _)
      | d :: ds =>
        have hd : d.isDigit = true := natChars_digits _ d (by rw [hnc]; simp)
        refine ⟨d, ds, ?_, ?_⟩
        · simp [serVal, intChars, hi, hnc]
        · intro h; subst h; simp at hd
  | str s => exact ⟨'\"', escChars s.data ++ ['\"'], by simp [serVal], by decide⟩
  | arr a =>
    cases a with
    | nil => exact ⟨'[', [']'], by simp [serVal], by decide⟩
    | cons v tl => exact ⟨'[', serVal v ++ serTailA tl, by simp [serVal], by decide⟩
  | obj o =>
    cases o with
    | nil => exact ⟨'\x7b', ['\x7d'], by simp [serVal], by decide⟩
    | cons k v tl => exact ⟨'\x7b', serMember k v ++ serTailO tl, by simp [serVal], by decide⟩

theorem string_eta (s : String) : String.mk s.data = s := rfl

/-- Parsing one serialized object member, given that the value inside parses. -/
theorem parseMember_ser (k : String) (v : JsonValue) (g : Nat) (rest : List Char)
    (hv : parseVal g (serVal v ++ rest) = some (v, rest)) :
    parseMember (g + 1) (serMember k v ++ rest) = some ((k, v), rest) := by
  have hstream : serMember k v ++ rest
      = '\"' :: (escChars k.data ++ '\"' :: (':' :: (serVal v ++ rest))) := by
    simp [serMember]
  rw [hstream]
  simp [parseMember, parseStrBody_escChars, hv, string_eta]

mutual

theorem rt_val (v : JsonValue) : ∀ f rest, wVal v ≤ f → noDigitHead rest = true →
    parseVal f (serVal v ++ rest) = some (v, rest) := by
  cases v with
  | null =>
    intro f rest hw hr
    have h1 : 1 ≤ f := le_trans (by simp [wVal]) hw
    obtain ⟨g, rfl⟩ : ∃ g, f = g + 1 := ⟨f - 1, by omega⟩
    have hstream : serVal .null ++ rest = 'n' :: 'u' :: 'l' :: 'l' :: rest := by
      simp [serVal, nullChars]
    rw [hstream]
    simp [parseVal, expectChars]
  | bool b =>
    intro f rest hw hr
    have h1 : 1 ≤ f := le_trans (by simp [wVal]) hw
    obtain ⟨g, rfl⟩ : ∃ g, f = g + 1 := ⟨f - 1, by omega⟩
    cases b
    · have hstream : serVal (.bool false) ++ rest = 'f' :: 'a' :: 'l' :: 's' :: 'e' :: rest := by
        simp [serVal, falseChars]
      rw [hstream]
      simp [parseVal, expectChars]
    · have hstream : serVal (.bool true) ++ rest = 't' :: 'r' :: 'u' :: 'e' :: rest := by
        simp [serVal, trueChars]
      rw [hstream]
      simp [parseVal, expectChars]
  | num i =>
    intro f rest hw hr
    have h1 : 1 ≤ f := le_trans (by simp [wVal]) hw
    obtain ⟨g, rfl⟩ : ∃ g, f = g + 1 := ⟨f - 1, by omega⟩
    by_cases hi : i < 0
    · have hstream : serVal (.num i) ++ rest = '-' :: (natChars i.natAbs ++ rest) := by
        simp [serVal, intChars, hi]
      rw [hstream]
      have habs : (Int.ofNat i.natAbs) = -i := Int.ofNat_natAbs_of_nonpos (le_of_lt hi)
      simp [parseVal, parseNum_natChars _ _ hr, habs]
      rw [abs_of_nonpos (le_of_lt hi), neg_neg]
    · match hnc : natChars i.toNat with
      | [] => exact absurd hnc (natChars_ne_nil _)
      | d :: ds =>
        have hd : d.isDigit = true := natChars_digits _ d (by rw [hnc]; simp)
        have hstream : serVal (.num i) ++ rest = d :: (ds ++ rest) := by
          simp [serVal, intChars, hi, hnc]
        rw [hstream]
        have hback : d :: (ds ++ rest) = natChars i.toNat ++ rest := by rw [hnc]; simp
        have htn : (Int.ofNat i.toNat) = i := Int.toNat_of_nonneg (by omega)
        simp only [parseVal, hd, if_pos, if_true]
        rw [hback, parseNum_natChars _ _ hr]
        simp [htn]
        omega
  | str s =>
    intro f rest hw hr
    have h1 : 1 ≤ f := le_trans (by simp [wVal]) hw
    obtain ⟨g, rfl⟩ : ∃ g, f = g + 1 := ⟨f - 1, by omega⟩
    have hstream : serVal (.str s) ++ rest = '\"' :: (escChars s.data ++ '\"' :: rest) := by
      simp [serVal]
    rw [hstream]
    simp [parseVal, parseStrBody_escChars, string_eta]
  | arr a =>
    cases a with
    | nil =>
      intro f rest hw hr
      have h1 : 1 ≤ f := le_trans (by simp [wVal]) hw
      obtain ⟨g, rfl⟩ : ∃ g, f = g + 1 := ⟨f - 1, by omega⟩
      have hstream : serVal (.arr .nil) ++ rest = '[' :: ']' :: rest := by simp [serVal]
      rw [hstream]
      simp [parseVal, parseArrFields]
    | cons v tl =>
      intro f rest hw hr
      have hw' : 2 + wVal v + wTA tl ≤ f := le_trans (by simp [wVal]) hw
      obtain ⟨g, rfl⟩ : ∃ g, f = g + 1 := ⟨f - 1, by omega⟩
      obtain ⟨c2, t, hser, hc2⟩ := serVal_head v
      have hstream : serVal (.arr (.cons v tl)) ++ rest
          = '[' :: (c2 :: (t ++ (serTailA tl ++ rest))) := by
        simp [serVal, hser]
      rw [hstream]
      have hback : c2 :: (t ++ (serTailA tl ++ rest)) = serVal v ++ (serTailA tl ++ rest) := by
        rw [hser]; simp
      have hv := rt_val v g (serTailA tl ++ rest) (by omega) (serTailA_noDigitHead tl rest)
      have hta := rt_ta tl g rest (by omega)
      simp [parseVal]
      simp only [parseArrFields]
      rw [if_neg hc2, hback, hv]
      simp [hta]
  | obj o =>
    cases o with
    | nil =>
      intro f rest hw hr
      have h1 : 1 ≤ f := le_trans (by simp [wVal]) hw
      obtain ⟨g, rfl⟩ : ∃ g, f = g + 1 := ⟨f - 1, by omega⟩
      have hstream : serVal (.obj .nil) ++ rest = '\x7b' :: '\x7d' :: rest := by simp [serVal]
      rw [hstream]
      simp [parseVal, parseObjFields]
    | cons k v tl =>
      intro f rest hw hr
      have hw' : 3 + wVal v + wTO tl ≤ f := le_trans (by simp [wVal]) hw
      obtain ⟨g, rfl⟩ : ∃ g, f = g + 1 := ⟨f - 1, by omega⟩
      obtain ⟨g2, rfl⟩ : ∃ g2, g = g2 + 1 := ⟨g - 1, by omega⟩
      have hv := rt_val v g2 (serTailO tl ++ rest) (by omega) (serTailO_noDigitHead tl rest)
      have hpm := parseMember_ser k v g2 (serTailO tl ++ rest) hv
      have hto := rt_to tl (g2 + 1) rest (by omega)
      have hstream : serVal (.obj (.cons k v tl)) ++ rest
          = '\x7b' :: ('\"' :: ((escChars k.data ++ ('\"' :: ':' :: serVal v)) ++ (serTailO tl ++ rest))) := by
        simp [serVal, serMember]
      rw [hstream]
      simp [serMember] at hpm
      simp [parseVal]
      simp only [parseObjFields]
      rw [if_neg (by decide : ¬ ('\"' : Char) = '\x7d')]
      simp [hpm, hto]
termination_by sizeOf v

theorem rt_ta (tl : JsonArr) : ∀ f rest, wTA tl ≤ f →
    parseArrTail f (serTailA tl ++ rest) = some (tl, rest) := by
  cases tl with
  | nil =>
    intro f rest _
    have hstream : serTailA .nil ++ rest = ']' :: rest := by simp [serTailA]
    rw [hstream]
    cases f <;> simp [parseArrTail]
  | cons v tl =>
    intro f rest hw
    have hw' : 1 + wVal v + wTA tl ≤ f := le_trans (by simp [wTA]) hw
    obtain ⟨g, rfl⟩ : ∃ g, f = g + 1 := ⟨f - 1, by omega⟩
    have hv := rt_val v g (serTailA tl ++ rest) (by omega) (serTailA_noDigitHead tl rest)
    have hta := rt_ta tl g rest (by omega)
    have hstream : serTailA (.cons v tl) ++ rest = ',' :: (serVal v ++ (serTailA tl ++ rest)) := by
      simp [serTailA]
    rw [hstream]
    simp [parseArrTail, hv, hta]
termination_by sizeOf tl

theorem rt_to (o : JsonObj) : ∀ f rest, wTO o ≤ f →
    parseObjTail f (serTailO o ++ rest) = some (o, rest) := by
  cases o with
  | nil =>
    intro f rest _
    have hstream : serTailO .nil ++ rest = '\x7d' :: rest := by simp [serTailO]
    rw [hstream]
    cases f <;> simp [parseObjTail]
  | cons k v tl =>
    intro f rest hw
    have hw' : 2 + wVal v + wTO tl ≤ f := le_trans (by simp [wTO]) hw
    obtain ⟨g, rfl⟩ : ∃ g, f = g + 1 := ⟨f - 1, by omega⟩
    obtain ⟨g2, rfl⟩ : ∃ g2, g = g2 + 1 := ⟨g - 1, by omega⟩
    have hv := rt_val v g2 (serTailO tl ++ rest) (by omega) (serTailO_noDigitHead tl rest)
    have hpm := parseMember_ser k v g2 (serTailO tl ++ rest) hv
    have hto := rt_to tl (g2 + 1) rest (by omega)
    have hstream : serTailO (.cons k v tl) ++ rest
        = ',' :: (serMember k v ++ (serTailO tl ++ rest)) := by
      simp [serTailO]
    rw [hstream]
    simp [parseObjTail, hpm, hto]
termination_by sizeOf o

end

theorem data_mk (l : List Char) : (String.mk l).data = l := rfl

mutual

theorem wb_val (v : JsonValue) : wVal v ≤ (serVal v).length := by
  cases v with
  | null => simp [wVal, serVal, nullChars]
  | bool b => cases b <;> simp [wVal, serVal, trueChars, falseChars]
  | num i =>
    have h1 : (intChars i).length ≥ 1 := by
      unfold intChars
      split
      · simp
      · have := natChars_ne_nil i.toNat
        cases hnc : natChars i.toNat with
        | nil => exact absurd hnc this
        | cons d ds => simp [hnc]
    simp only [wVal, serVal]
    omega
  | str s => simp [wVal, serVal]
  | arr a =>
    cases a with
    | nil => simp [wVal, serVal]
    | cons v tl =>
      have h1 := wb_val v
      have h2 := wb_ta tl
      simp only [wVal, serVal, List.length_cons, List.length_append]
      omega
  | obj o =>
    cases o with
    | nil => simp [wVal, serVal]
    | cons k v tl =>
      have h1 := wb_val v
      have h2 := wb_to tl
      simp only [wVal, serVal, serMember, List.length_cons, List.length_append]
      omega
termination_by sizeOf v

theorem wb_ta (tl : JsonArr) : 1 + wTA tl ≤ (serTailA tl).length := by
  cases tl with
  | nil => simp [wTA, serTailA]
  | cons v tl =>
    have h1 := wb_val v
    have h2 := wb_ta tl
    simp only [wTA, serTailA, List.length_cons, List.length_append]
    omega
termination_by sizeOf tl

theorem wb_to (o : JsonObj) : 1 + wTO o ≤ (serTailO o).length := by
  cases o with
  | nil => simp [wTO, serTailO]
  | cons k v tl =>
    have h1 := wb_val v
    have h2 := wb_to tl
    simp only [wTO, serTailO, serMember, List.length_cons, List.length_append]
    omega
termination_by sizeOf o

end

/-- The round-trip law (spec 8): parsing the canonical JSON serialization of
any value yields the value back. -/
theorem jsonParse_jsonSerialize (v : JsonValue) : jsonParse (jsonSerialize v) = some v := by
  have hb : wVal v ≤ (serVal v).length + 1 := le_trans (wb_val v) (by omega)
  have h := rt_val v ((serVal v).length + 1) [] hb rfl
  rw [List.append_nil] at h
  simp only [jsonParse, jsonSerialize, data_mk]
  rw [h]

/-! ## The tool-invocation pipeline (spec 4.4, 4.5)

Modelled from the spec: the implementation of the pipeline is not among the source
files here (only its test suite is), so the data model and the operation
`handleCallTool` below follow spec sections 3, 4.4 and 4.5 directly. -/

/-- Modelled from the spec: one unit of tool output — a tagged variant
(spec 3, "ContentBlock"). -/
inductive ContentBlock : Type where
  | text (text : String)
  | image (data : String) (mimeType : String)
  | resource (uri : String) (text : String)
deriving DecidableEq

/-- Modelled from the spec: a registered tool definition (spec 3,
"ToolDefinition"): unique name, description, an input schema and an optional
output schema (schemas are JSON values here, as in the test suite). -/
structure ToolDefinition : Type where
  name : String
  description : String
  inputSchema : JsonValue
  outputSchema : Option JsonValue

/-- Modelled from the spec: the closed tagged-variant type at the pipeline
boundary for a handler outcome (spec 9: `Blocks | Mapping | Failure`).
A raised exception is represented by `failure` with its description. -/
inductive HandlerOutcome : Type where
  | blocks (bs : List ContentBlock)
  | mapping (m : JsonObj)
  | failure (msg : String)

/-- Modelled from the spec: a tool registry entry: definition plus handler
(spec 6: `registerTool(definition, handler)`); the handler receives the
arguments mapping. -/
structure RegisteredTool : Type where
  tool : ToolDefinition
  handler : JsonObj → HandlerOutcome

/-- Modelled from the spec: the wire-level result of a tool call (spec 3,
"CallToolResult"): `content` always present, `structuredContent` optional,
`isError` flag. -/
structure CallToolResult : Type where
  content : List ContentBlock
  structuredContent : Option JsonObj
  isError : Bool
deriving DecidableEq

/-- Look up a tool by name in the registry (spec 4.4 step 1). -/
def findTool (reg : List RegisteredTool) (name : String) : Option RegisteredTool :=
  reg.find? (fun t => t.tool.name == name)

/-- Modelled from the spec: the Result Normalizer policy table (spec 4.5):
a sequence of content blocks passes through unchanged with no structured
content; a mapping produces a single Text block holding its canonical JSON
text plus the mapping verbatim as `structuredContent`; a failure becomes
`isError = true` with a descriptive Text block. -/
def normalizeResult : HandlerOutcome → CallToolResult
  | .blocks bs => { content := bs, structuredContent := none, isError := false }
  | .mapping m =>
      { content := [.text (jsonSerialize (.obj m))]
        structuredContent := some m
        isError := false }
  | .failure msg =>
      { content := [.text (String.append "Error executing tool: " msg)]
        structuredContent := none
        isError := true }

/-- Modelled from the spec: `handleCallTool(name, arguments)` (spec 4.4):
look the tool up (unknown name yields an in-protocol error result), invoke
the handler on the raw arguments — with no schema validation of either the
arguments or the result — and normalize the outcome.  The operation is a
total function into `CallToolResult`: every failure mode is reported through
the protocol, never as a transport-level error. -/
def handleCallTool (reg : List RegisteredTool) (name : String) (args : JsonObj) :
    CallToolResult :=
  match findTool reg name with
  | none =>
      { content := [.text (String.append "Unknown tool: " name)]
        structuredContent := none
        isError := true }
  | some t => normalizeResult (t.handler args)

/-! ## Capability negotiation (spec 4.3)

Modelled from the spec: the server-side handshake state machine.  States
`uninitialized → initializing → ready → closed`; protocol errors drop the
offending message and leave the state unchanged (spec 7, "Protocol error"). -/

/-- Modelled from the spec: the negotiation states (spec 4.3). -/
inductive SessionState : Type where
  | uninitialized
  | initializing
  | ready
  | closed
deriving DecidableEq

/-- Modelled from the spec: messages relevant to the server handshake: the
`initialize` request, the `initialized` notification, any other request
(carrying its method name, e.g. a tool call), and stream closure. -/
inductive Incoming : Type where
  | initReq
  | initNote
  | otherReq (method : String)
  | close
deriving DecidableEq

/-- Modelled from the spec: how the server reacts to one incoming message. -/
inductive HandleOutcome : Type where
  | accepted
  | protocolError
deriving DecidableEq

/-- Modelled from the spec: the server negotiation step (spec 4.3): in
`uninitialized` only `initialize` is accepted (moving to `initializing`);
in `initializing` only the `initialized` notification is accepted (moving to
`ready`); in `ready` other requests are served; any other request while not
`ready` is rejected with a protocol error and the single offending message is
dropped, the session continuing in the same state (spec 7); closure is
terminal. -/
def serverStep : SessionState → Incoming → SessionState × HandleOutcome
  | .uninitialized, .initReq => (.initializing, .accepted)
  | .uninitialized, .close => (.closed, .accepted)
  | .uninitialized, _ => (.uninitialized, .protocolError)
  | .initializing, .initNote => (.ready, .accepted)
  | .initializing, .close => (.closed, .accepted)
  | .initializing, _ => (.initializing, .protocolError)
  | .ready, .close => (.closed, .accepted)
  | .ready, .initReq => (.ready, .protocolError)
  | .ready, .initNote => (.ready, .protocolError)
  | .ready, .otherReq _ => (.ready, .accepted)
  | .closed, _ => (.closed, .protocolError)

/-- Run the server negotiation machine over a trace of incoming messages. -/
def runTrace (s : SessionState) (tr : List Incoming) : SessionState :=
  tr.foldl (fun st e => (serverStep st e).1) s

/-! ## The FastMCP example (`examples/fastmcp/complex_inputs.py`)

Embedded from the source.  Python `float` fields are modelled as exact
rationals (only order comparisons against decimal literals occur), Python
`int` as `Int`, and Python `dict` (insertion-ordered) as an association list
whose update keeps an existing key in place and appends a new key at the
end. -/

/-- One shrimp (`ShrimpTank.Shrimp`): `name`, `color` (default "red"),
`age_days` (default 0). -/
structure Shrimp : Type where
  name : String
  color : String
  age_days : Int
deriving DecidableEq

/-- A shrimp tank (`ShrimpTank`): list of shrimp, `temperature` (default
24.0), `ph_level` (default 7.0). -/
structure ShrimpTank : Type where
  shrimp : List Shrimp
  temperature : ℚ
  ph_level : ℚ

/-- The result model `TankAnalysis` of `analyze_tank`. -/
structure TankAnalysis : Type where
  total_shrimp : Nat
  temperature_status : String
  ph_status : String
  shrimp_by_color : List (String × Nat)
  oldest_shrimp : Option String
  recommendations : List String

/-- `color_counts[shrimp.color] = color_counts.get(shrimp.color, 0) + 1` on an
insertion-ordered dict: bump an existing key in place, append a new key. -/
def bumpColor (counts : List (String × Nat)) (c : String) : List (String × Nat) :=
  match counts with
  | [] => [(c, 1)]
  | (k, n) :: rest => if k = c then (k, n + 1) :: rest else (k, n) :: bumpColor rest c

/-- The `for shrimp in tank.shrimp: color_counts[...] += 1` loop of
`analyze_tank`. -/
def colorCounts (l : List Shrimp) : List (String × Nat) :=
  l.foldl (fun acc s => bumpColor acc s.color) []

/-- `max(tank.shrimp, key=lambda s: s.age_days).name` on a nonempty list
(Python `max` keeps the earliest maximum), `None` when the tank is empty. -/
def oldestName : List Shrimp → Option String
  | [] => none
  | s :: rest =>
    some ((rest.foldl (fun best x => if x.age_days > best.age_days then x else best) s).name)

/-- Temperature analysis of `analyze_tank`. -/
def tempStatus (t : ℚ) : String :=
  if t < 22 then "too_cold" else if t > 26 then "too_hot" else "optimal"

/-- pH analysis of `analyze_tank`. -/
def phStatus (p : ℚ) : String :=
  if p < 6.8 then "too_acidic" else if p > 7.5 then "too_basic" else "optimal"

/-- The advice appended by `analyze_tank`: temperature advice, then pH
advice, then overcrowding advice. -/
def adviceList (tank : ShrimpTank) : List String :=
  (if tempStatus tank.temperature = "too_cold" then
      ["Increase water temperature to 22-26°C"]
    else if tempStatus tank.temperature = "too_hot" then
      ["Decrease water temperature to 22-26°C"]
    else []) ++
  (if phStatus tank.ph_level = "too_acidic" then
      ["Add crushed coral or baking soda to raise pH"]
    else if phStatus tank.ph_level = "too_basic" then
      ["Add Indian almond leaves or driftwood to lower pH"]
    else []) ++
  (if tank.shrimp.length > 20 then
      ["Consider dividing colony to prevent overcrowding"]
    else [])

/-- The recommendation list built by `analyze_tank`: the appended advice, or,
if nothing was appended, the single entry "Tank conditions are optimal!". -/
def recommendationsFor (tank : ShrimpTank) : List String :=
  if adviceList tank = [] then ["Tank conditions are optimal!"] else adviceList tank

/-- `analyze_tank` from the example source. -/
def analyze_tank (tank : ShrimpTank) : TankAnalysis :=
  { total_shrimp := tank.shrimp.length
    temperature_status := tempStatus tank.temperature
    ph_status := phStatus tank.ph_level
    shrimp_by_color := colorCounts tank.shrimp
    oldest_shrimp := oldestName tank.shrimp
    recommendations := recommendationsFor tank }

/-- `pairs_by_color[color].append(name)` preceded by
`if color not in pairs_by_color: pairs_by_color[color] = []` on an
insertion-ordered dict. -/
def addName (m : List (String × List String)) (c n : String) : List (String × List String) :=
  match m with
  | [] => [(c, [n])]
  | (k, ns) :: rest => if k = c then (k, ns ++ [n]) :: rest else (k, ns) :: addName rest c n

/-- `get_breeding_pairs` from the example source: collect names of shrimp
with `age_days >= 60` per color, then keep only colors with at least two
names. -/
def get_breeding_pairs (tank : ShrimpTank) : List (String × List String) :=
  (tank.shrimp.foldl
      (fun acc s => if s.age_days ≥ 60 then addName acc s.color s.name else acc) []).filter
    (fun p => decide (2 ≤ p.2.length))

/-! ### Lemmas for the example tools -/

theorem bumpColor_sum (acc : List (String × Nat)) (c : String) :
    ((bumpColor acc c).map Prod.snd).sum = (acc.map Prod.snd).sum + 1 := by
  induction acc with
  | nil => simp [bumpColor]
  | cons p rest ih =>
    obtain ⟨k, n⟩ := p
    by_cases hk : k = c
    · simp [bumpColor, hk]
      omega
    · simp [bumpColor, hk, ih]
      omega

theorem colorCounts_fold_sum (l : List Shrimp) :
    ∀ acc : List (String × Nat),
      ((l.foldl (fun acc s => bumpColor acc s.color) acc).map Prod.snd).sum
        = (acc.map Prod.snd).sum + l.length := by
  induction l with
  | nil => intro acc; simp
  | cons s rest ih =>
    intro acc
    simp only [List.foldl_cons, List.length_cons, ih, bumpColor_sum]
    omega

/-- All names recorded for a color in the breeding-pairs accumulator belong to
mature shrimp of that color from `l`. -/
def GoodEntry (l : List Shrimp) (p : String × List String) : Prop :=
  ∀ n ∈ p.2, ∃ s, s ∈ l ∧ s.name = n ∧ s.color = p.1 ∧ 60 ≤ s.age_days

theorem addName_good (l : List Shrimp) (acc : List (String × List String)) (c n : String)
    (hacc : ∀ p ∈ acc, GoodEntry l p)
    (hw : ∃ s, s ∈ l ∧ s.name = n ∧ s.color = c ∧ 60 ≤ s.age_days) :
    ∀ p ∈ addName acc c n, GoodEntry l p := by
  induction acc with
  | nil =>
    intro p hp
    simp [addName] at hp
    subst hp
    intro m hm
    simp at hm
    subst hm
    exact hw
  | cons q rest ih =>
    obtain ⟨k, ns⟩ := q
    by_cases hk : k = c
    · intro p hp
      simp [addName, hk] at hp
      rcases hp with hp | hp
      · subst hp
        intro m hm
        simp at hm
        rcases hm with hm | hm
        · exact hacc (c, ns) (by simp [hk]) m hm
        · subst hm; exact hw
      · exact hacc p (by simp [hp])
    · intro p hp
      simp [addName, hk] at hp
      rcases hp with hp | hp
      · subst hp
        exact hacc (k, ns) (by simp)
      · exact ih (fun q hq => hacc q (by simp [hq])) p hp

theorem breeding_fold_good (l : List Shrimp) :
    ∀ (sub : List Shrimp) (acc : List (String × List String)),
      (∀ s ∈ sub, s ∈ l) → (∀ p ∈ acc, GoodEntry l p) →
      ∀ p ∈ sub.foldl
          (fun acc s => if s.age_days ≥ 60 then addName acc s.color s.name else acc) acc,
        GoodEntry l p := by
  intro sub
  induction sub with
  | nil => intro acc _ hacc p hp; exact hacc p hp
  | cons s rest ih =>
    intro acc hsub hacc p hp
    simp only [List.foldl_cons] at hp
    by_cases hage : s.age_days ≥ 60
    · rw [if_pos hage] at hp
      exact ih _ (fun x hx => hsub x (by simp [hx]))
        (addName_good l acc s.color s.name hacc
          ⟨s, hsub s (by simp), rfl, rfl, hage⟩) p hp
    · rw [if_neg hage] at hp
      exact ih _ (fun x hx => hsub x (by simp [hx])) hacc p hp

/-- C8: every entry `(color, names)` of `get_breeding_pairs tank` has at least
two names, and every listed name is the name of some shrimp of `tank.shrimp`
with that color and `age_days ≥ 60`. -/
theorem get_breeding_pairs_sound (tank : ShrimpTank) (c : String) (ns : List String)
    (h : (c, ns) ∈ get_breeding_pairs tank) :
    2 ≤ ns.length ∧
      ∀ n ∈ ns, ∃ s, s ∈ tank.shrimp ∧ s.name = n ∧ s.color = c ∧ 60 ≤ s.age_days := by
  unfold get_breeding_pairs at h
  rw [List.mem_filter] at h
  obtain ⟨hmem, hlen⟩ := h
  refine ⟨by simpa using hlen, ?_⟩
  exact breeding_fold_good tank.shrimp tank.shrimp [] (fun s hs => hs) (by simp) (c, ns) hmem

/-- The test tank of the example source `complex_inputs.py` (`test()`), with the
neutral default water values. -/
def testTank : ShrimpTank :=
  { shrimp :=
      [ { name := "Rex", color := "red", age_days := 90 }
        , { name := "Blue", color := "blue", age_days := 45 }
        , { name := "Crimson", color := "red", age_days := 120 }
        , { name := "Azure", color := "blue", age_days := 80 }
        , { name := "Jade", color := "green", age_days := 30 }
        , { name := "Ruby", color := "red", age_days := 75 } ]
    temperature := 24
    ph_level := 7 }

/-- Witness for C8 at the test tank of the example: the red breeding group. -/
theorem get_breeding_pairs_sound_witness :
    2 ≤ (["Rex", "Crimson", "Ruby"] : List String).length ∧
      ∀ n ∈ (["Rex", "Crimson", "Ruby"] : List String),
        ∃ s, s ∈ testTank.shrimp ∧ s.name = n ∧ s.color = "red" ∧ 60 ≤ s.age_days :=
  get_breeding_pairs_sound testTank "red" ["Rex", "Crimson", "Ruby"] (by decide)

/-- C10: `analyze_tank` counts every shrimp exactly once: `total_shrimp` is
the tank size, the color counts sum to the tank size, and `oldest_shrimp` is
`None` exactly for an empty tank. -/
theorem analyze_tank_counts (tank : ShrimpTank) :
    (analyze_tank tank).total_shrimp = tank.shrimp.length ∧
    (((analyze_tank tank).shrimp_by_color).map Prod.snd).sum = tank.shrimp.length ∧
    ((analyze_tank tank).oldest_shrimp = none ↔ tank.shrimp = []) := by
  refine ⟨rfl, ?_, ?_⟩
  · have h := colorCounts_fold_sum tank.shrimp []
    simpa [analyze_tank, colorCounts] using h
  · cases htk : tank.shrimp with
    | nil => simp [analyze_tank, oldestName, htk]
    | cons s rest => simp [analyze_tank, oldestName, htk]

/-- C9: the recommendation list of `analyze_tank` is never empty, and when no
condition triggers advice (temperature and pH optimal, at most 20 shrimp) it
is exactly the single entry "Tank conditions are optimal!". -/
theorem analyze_tank_recommendations (tank : ShrimpTank) :
    (analyze_tank tank).recommendations ≠ [] ∧
    (tempStatus tank.temperature = "optimal" → phStatus tank.ph_level = "optimal" →
      ¬ tank.shrimp.length > 20 →
      (analyze_tank tank).recommendations = ["Tank conditions are optimal!"]) := by
  constructor
  · show recommendationsFor tank ≠ []
    unfold recommendationsFor
    split
    · simp
    · next h => exact h
  · intro h1 h2 h3
    show recommendationsFor tank = _
    unfold recommendationsFor
    simp [adviceList, h1, h2, h3]

/-- Witness for C9 at the test tank of the example (optimal water, six shrimp). -/
theorem analyze_tank_recommendations_witness :
    (analyze_tank testTank).recommendations = ["Tank conditions are optimal!"] :=
  (analyze_tank_recommendations testTank).2
    (by norm_num [testTank, tempStatus]) (by norm_num [testTank, phStatus]) (by decide)

/-! ### Pipeline claims -/

/-- C1: for every mapping-shaped handler return `M`, `handleCallTool` delivers
`structuredContent = M`, a single Text content block holding the canonical
JSON text of `M`, and parsing that text yields `M` back (round-trip law) —
with no hypothesis on whether the tool declares an `outputSchema`, so the
result is independent of any declared schema. -/
theorem callTool_mapping_roundtrip (reg : List RegisteredTool) (name : String)
    (args : JsonObj) (t : RegisteredTool) (M : JsonObj)
    (hfind : findTool reg name = some t) (hm : t.handler args = .mapping M) :
    (handleCallTool reg name args).structuredContent = some M ∧
    (handleCallTool reg name args).content = [ContentBlock.text (jsonSerialize (.obj M))] ∧
    jsonParse (jsonSerialize (.obj M)) = some (.obj M) ∧
    (handleCallTool reg name args).isError = false := by
  have hres : handleCallTool reg name args = normalizeResult (.mapping M) := by
    simp only [handleCallTool, hfind, hm]
  rw [hres]
  exact ⟨rfl, rfl, jsonParse_jsonSerialize _, rfl⟩

/-- The `get_user` tool of `test_lowlevel_server_structured_tool_output`. -/
def getUserTool : ToolDefinition :=
  { name := "get_user"
    description := "Get user information"
    inputSchema := .obj (.cons "type" (.str "object")
      (.cons "properties" (.obj (.cons "user_id" (.obj (.cons "type" (.str "integer") .nil)) .nil))
      (.cons "required" (.arr (.cons (.str "user_id") .nil)) .nil)))
    outputSchema := some (.obj (.cons "type" (.str "object")
      (.cons "properties" (.obj
        (.cons "id" (.obj (.cons "type" (.str "integer") .nil))
        (.cons "name" (.obj (.cons "type" (.str "string") .nil))
        (.cons "email" (.obj (.cons "type" (.str "string") .nil)) .nil))))
      (.cons "required" (.arr
        (.cons (.str "id") (.cons (.str "name") (.cons (.str "email") .nil)))) .nil)))) }

/-- The mapping returned by the `get_user` handler in the test. -/
def userOutput : JsonObj :=
  .cons "id" (.num 42)
    (.cons "name" (.str "John Doe")
      (.cons "email" (.str "john@example.com") .nil))

/-- Registry holding `get_user` with its test handler. -/
def getUserReg : List RegisteredTool :=
  [{ tool := getUserTool, handler := fun _ => .mapping userOutput }]

/-- The arguments `{user_id: 42}` of the test call. -/
def userArgs : JsonObj := .cons "user_id" (.num 42) .nil

/-- Witness for C1 at the `get_user` scenario of the test suite. -/
theorem callTool_mapping_roundtrip_witness :
    (handleCallTool getUserReg "get_user" userArgs).structuredContent = some userOutput ∧
    (handleCallTool getUserReg "get_user" userArgs).content
      = [ContentBlock.text (jsonSerialize (.obj userOutput))] ∧
    jsonParse (jsonSerialize (.obj userOutput)) = some (.obj userOutput) ∧
    (handleCallTool getUserReg "get_user" userArgs).isError = false :=
  callTool_mapping_roundtrip getUserReg "get_user" userArgs
    { tool := getUserTool, handler := fun _ => .mapping userOutput } userOutput rfl rfl

/-- C2: the pipeline performs no schema validation: for a tool that declares
both an `inputSchema` and an `outputSchema`, whatever mapping the handler
returns (in particular one violating the output schema) on whatever arguments
(in particular ones violating the input schema) is delivered unmodified with
`isError = false`; the hypotheses place no relation between the mapping and
the schemas. -/
theorem callTool_no_schema_validation (reg : List RegisteredTool) (name : String)
    (args : JsonObj) (t : RegisteredTool) (M : JsonObj)
    (hfind : findTool reg name = some t)
    (_hschema : t.tool.outputSchema.isSome = true)
    (hm : t.handler args = .mapping M) :
    (handleCallTool reg name args).isError = false ∧
    (handleCallTool reg name args).structuredContent = some M ∧
    (handleCallTool reg name args).content = [ContentBlock.text (jsonSerialize (.obj M))] ∧
    jsonParse (jsonSerialize (.obj M)) = some (.obj M) := by
  have hres : handleCallTool reg name args = normalizeResult (.mapping M) := by
    simp only [handleCallTool, hfind, hm]
  rw [hres]
  exact ⟨rfl, rfl, rfl, jsonParse_jsonSerialize _⟩

/-- The `strict_tool` of `test_lowlevel_server_no_schema_validation`. -/
def strictTool : ToolDefinition :=
  { name := "strict_tool"
    description := "Tool with strict schema"
    inputSchema := .obj (.cons "type" (.str "object")
      (.cons "properties" (.obj
        (.cons "required_field" (.obj (.cons "type" (.str "string") .nil)) .nil))
      (.cons "required" (.arr (.cons (.str "required_field") .nil)) .nil)))
    outputSchema := some (.obj (.cons "type" (.str "object")
      (.cons "properties" (.obj
        (.cons "result" (.obj (.cons "type" (.str "integer") .nil)) .nil))
      (.cons "required" (.arr (.cons (.str "result") .nil)) .nil)))) }

/-- The schema-violating mapping the test handler returns: `result` has the
wrong type and two extra fields are present. -/
def invalidOutput : JsonObj :=
  .cons "result" (.str "not an integer")
    (.cons "extra_field" (.str "should not be here")
      (.cons "another_extra" (.num 123) .nil))

/-- Registry holding `strict_tool` with its test handler. -/
def strictReg : List RegisteredTool :=
  [{ tool := strictTool, handler := fun _ => .mapping invalidOutput }]

/-- The schema-violating arguments `{wrong_field: "value"}` of the test call. -/
def wrongArgs : JsonObj := .cons "wrong_field" (.str "value") .nil

/-- Witness for C2 at the `strict_tool` scenario of the test suite. -/
theorem callTool_no_schema_validation_witness :
    (handleCallTool strictReg "strict_tool" wrongArgs).isError = false ∧
    (handleCallTool strictReg "strict_tool" wrongArgs).structuredContent = some invalidOutput ∧
    (handleCallTool strictReg "strict_tool" wrongArgs).content
      = [ContentBlock.text (jsonSerialize (.obj invalidOutput))] ∧
    jsonParse (jsonSerialize (.obj invalidOutput)) = some (.obj invalidOutput) :=
  callTool_no_schema_validation strictReg "strict_tool" wrongArgs
    { tool := strictTool, handler := fun _ => .mapping invalidOutput } invalidOutput
    rfl rfl rfl

/-- C3: a handler returning a sequence of content blocks (of any mix of
variants) yields exactly that sequence as `content` — length and order
preserved — with no structured content and `isError = false`. -/
theorem callTool_blocks_preserved (reg : List RegisteredTool) (name : String)
    (args : JsonObj) (t : RegisteredTool) (bs : List ContentBlock)
    (hfind : findTool reg name = some t) (hb : t.handler args = .blocks bs) :
    (handleCallTool reg name args).content = bs ∧
    (handleCallTool reg name args).structuredContent = none ∧
    (handleCallTool reg name args).isError = false := by
  have hres : handleCallTool reg name args = normalizeResult (.blocks bs) := by
    simp only [handleCallTool, hfind, hb]
  rw [hres]
  exact ⟨rfl, rfl, rfl⟩

/-- The mixed text/image/text output of `test_lowlevel_server_mixed_content_types`. -/
def mixedBlocks : List ContentBlock :=
  [ .text "Heres some text"
    , .image "iVBORw0KGgoAAAANSUhEUgAAAAEAAAABCAYAAAAfFcSJAAAADUlEQVR42mNkYPhfDwAChwGA60e6kgAAAABJRU5ErkJggg==" "image/png"
    , .text "And more text after the image" ]

/-- Registry holding `mixed_content` with its test handler. -/
def mixedReg : List RegisteredTool :=
  [{ tool :=
      { name := "mixed_content"
        description := "Tool that returns mixed content types"
        inputSchema := .obj (.cons "type" (.str "object") .nil)
        outputSchema := none }
     handler := fun _ => .blocks mixedBlocks }]

/-- Witness for C3 at the mixed-content scenario of the test suite. -/
theorem callTool_blocks_preserved_witness :
    (handleCallTool mixedReg "mixed_content" .nil).content = mixedBlocks ∧
    (handleCallTool mixedReg "mixed_content" .nil).structuredContent = none ∧
    (handleCallTool mixedReg "mixed_content" .nil).isError = false :=
  callTool_blocks_preserved mixedReg "mixed_content" .nil
    { tool :=
        { name := "mixed_content"
          description := "Tool that returns mixed content types"
          inputSchema := .obj (.cons "type" (.str "object") .nil)
          outputSchema := none }
      handler := fun _ => .blocks mixedBlocks } mixedBlocks rfl rfl

/-- C4: an unknown tool name yields an in-protocol result: `isError = true`
with a single Text block describing the failure.  `handleCallTool` is a total
function into `CallToolResult`, so no transport-level error can be raised. -/
theorem callTool_unknown_tool (reg : List RegisteredTool) (name : String) (args : JsonObj)
    (h : findTool reg name = none) :
    (handleCallTool reg name args).isError = true ∧
    (handleCallTool reg name args).content
      = [ContentBlock.text (String.append "Unknown tool: " name)] := by
  have hres : handleCallTool reg name args
      = { content := [.text (String.append "Unknown tool: " name)]
          structuredContent := none
          isError := true } := by
    simp only [handleCallTool, h]
  rw [hres]
  exact ⟨rfl, rfl⟩

/-- Witness for C4: calling a name absent from the registry. -/
theorem callTool_unknown_tool_witness :
    (handleCallTool getUserReg "missing_tool" .nil).isError = true ∧
    (handleCallTool getUserReg "missing_tool" .nil).content
      = [ContentBlock.text (String.append "Unknown tool: " "missing_tool")] :=
  callTool_unknown_tool getUserReg "missing_tool" .nil rfl

/-- C5: a handler failure (a raised exception, represented by the `failure`
outcome with the description of the exception) is caught at the pipeline boundary
and converted to `isError = true` with a nonempty content sequence holding a
Text block describing the failure; `handleCallTool` stays a total function
into `CallToolResult`, so the failure never escapes as a transport-level
error and the request gets exactly the one response built here. -/
theorem callTool_handler_failure (reg : List RegisteredTool) (name : String)
    (args : JsonObj) (t : RegisteredTool) (msg : String)
    (hfind : findTool reg name = some t) (hf : t.handler args = .failure msg) :
    (handleCallTool reg name args).isError = true ∧
    (handleCallTool reg name args).content
      = [ContentBlock.text (String.append "Error executing tool: " msg)] ∧
    (handleCallTool reg name args).content ≠ [] := by
  have hres : handleCallTool reg name args = normalizeResult (.failure msg) := by
    simp only [handleCallTool, hfind, hf]
  rw [hres]
  exact ⟨rfl, rfl, by simp [normalizeResult]⟩

/-- Registry whose handler fails on every call, as the test handlers do for
unexpected names (`raise ValueError(...)`). -/
def failingReg : List RegisteredTool :=
  [{ tool :=
      { name := "echo"
        description := "Echo a message back"
        inputSchema := .obj (.cons "type" (.str "object") .nil)
        outputSchema := none }
     handler := fun _ => .failure "Unknown tool: echo" }]

/-- Witness for C5: a handler that raises. -/
theorem callTool_handler_failure_witness :
    (handleCallTool failingReg "echo" .nil).isError = true ∧
    (handleCallTool failingReg "echo" .nil).content
      = [ContentBlock.text (String.append "Error executing tool: " "Unknown tool: echo")] ∧
    (handleCallTool failingReg "echo" .nil).content ≠ [] :=
  callTool_handler_failure failingReg "echo" .nil
    { tool :=
        { name := "echo"
          description := "Echo a message back"
          inputSchema := .obj (.cons "type" (.str "object") .nil)
          outputSchema := none }
      handler := fun _ => .failure "Unknown tool: echo" } "Unknown tool: echo" rfl rfl

/-- C7: a handler returning the empty sequence yields empty `content`, no
structured content and `isError = false`. -/
theorem callTool_empty_output (reg : List RegisteredTool) (name : String)
    (args : JsonObj) (t : RegisteredTool)
    (hfind : findTool reg name = some t) (hb : t.handler args = .blocks []) :
    (handleCallTool reg name args).content = [] ∧
    (handleCallTool reg name args).structuredContent = none ∧
    (handleCallTool reg name args).isError = false := by
  have hres : handleCallTool reg name args = normalizeResult (.blocks []) := by
    simp only [handleCallTool, hfind, hb]
  rw [hres]
  exact ⟨rfl, rfl, rfl⟩

/-- The `noop` tool of `test_lowlevel_server_empty_tool_output`. -/
def noopReg : List RegisteredTool :=
  [{ tool :=
      { name := "noop"
        description := "Tool that returns nothing"
        inputSchema := .obj (.cons "type" (.str "object") .nil)
        outputSchema := none }
     handler := fun _ => .blocks [] }]

/-- Witness for C7 at the `noop` scenario of the test suite. -/
theorem callTool_empty_output_witness :
    (handleCallTool noopReg "noop" .nil).content = [] ∧
    (handleCallTool noopReg "noop" .nil).structuredContent = none ∧
    (handleCallTool noopReg "noop" .nil).isError = false :=
  callTool_empty_output noopReg "noop" .nil
    { tool :=
        { name := "noop"
          description := "Tool that returns nothing"
          inputSchema := .obj (.cons "type" (.str "object") .nil)
          outputSchema := none }
      handler := fun _ => .blocks [] } rfl rfl

/-- Reaching `ready` requires the handshake: from any start state, a trace
ending in `ready` either started at `ready`, or started at `initializing` and
contains the `initialized` notification, or started at `uninitialized` and
contains both handshake messages. -/
theorem reach_ready (tr : List Incoming) : ∀ s : SessionState,
    runTrace s tr = .ready →
    s = .ready ∨ (s = .initializing ∧ .initNote ∈ tr) ∨
      (s = .uninitialized ∧ .initReq ∈ tr ∧ .initNote ∈ tr) := by
  induction tr with
  | nil =>
    intro s h
    simp only [runTrace] at h
    exact Or.inl h
  | cons e tr ih =>
    intro s h
    simp only [runTrace] at h
    have step := ih ((serverStep s e).1) h
    cases s <;> cases e <;> simp_all [serverStep]

/-- C6: in the negotiation state machine, any request other than
`initialize`/`initialized` received while the session is not `ready` is
rejected with a protocol error, and a session that reached `ready` from
`uninitialized` — the precondition for any tool call to be served — has both
handshake messages in its trace, so no tool call is served before the
`initialize`/`initialized` handshake completes. -/
theorem negotiation_guards_requests (s : SessionState) (m : String) (tr : List Incoming) :
    (s ≠ .ready → (serverStep s (.otherReq m)).2 = .protocolError) ∧
    (runTrace .uninitialized tr = .ready → .initReq ∈ tr ∧ .initNote ∈ tr) := by
  constructor
  · intro hs
    cases s <;> simp_all [serverStep]
  · intro h
    rcases reach_ready tr .uninitialized h with h1 | ⟨h1, _⟩ | ⟨_, h2, h3⟩
    · exact absurd h1 (by simp)
    · exact absurd h1 (by simp)
    · exact ⟨h2, h3⟩

/-- Witness for C6: a tool call in `initializing` is rejected; the completed
handshake trace contains both handshake messages. -/
theorem negotiation_guards_requests_witness :
    ((serverStep .initializing (.otherReq "tools/call")).2 = .protocolError) ∧
    (.initReq ∈ ([.initReq, .initNote] : List Incoming) ∧
      .initNote ∈ ([.initReq, .initNote] : List Incoming)) :=
  ⟨(negotiation_guards_requests .initializing "tools/call" [.initReq, .initNote]).1
      (by decide),
    (negotiation_guards_requests .initializing "tools/call" [.initReq, .initNote]).2 rfl⟩

/-- Witness for C10 at the test tank of the example. -/
theorem analyze_tank_counts_witness :
    (analyze_tank testTank).total_shrimp = testTank.shrimp.length ∧
    (((analyze_tank testTank).shrimp_by_color).map Prod.snd).sum = testTank.shrimp.length ∧
    ((analyze_tank testTank).oldest_shrimp = none ↔ testTank.shrimp = []) :=
  analyze_tank_counts testTank
